import Mathlib

/-!
Verification of the incremental caching and dependency-invalidation subsystem
of the nest-scramble repository (CacheManager, DependencyTracker,
IncrementalScannerService).

The TypeScript sources are shallowly embedded:
* `Map<string, T>` becomes an association list `List (String × T)` with the
  first binding for a key being the visible one (`aget` / `aset` / `adel`);
  JS `Map` keeps keys unique, the association-list operations are robust to
  duplicates in the same way.
* `Set<string>` becomes a `List String` used with membership semantics.
* The persisted JSON document becomes the inductive `Json`; string-level
  parsing/printing is abstracted except where a claim is about bytes on disk
  (`jsonToString` for the atomic-write analysis).
* Filesystem stat/read results and the external ts-morph per-file analyzer
  enter as explicit oracle arguments.
* `path.normalize` is the identity on the already-canonical path strings used
  here.
-/

namespace NestScramble

/-- JSON-compatible values, the shape of the persisted cache document.
Numbers are the naturals used by the code (timestamps, sizes). -/
inductive Json where
  | null : Json
  | bool (b : Bool) : Json
  | num (n : Nat) : Json
  | str (s : String) : Json
  | arr (elems : List Json) : Json
  | obj (fields : List (String × Json)) : Json
deriving Repr

/-- First binding for a key in an association list (JS `Map.get`). -/
def aget {α : Type} (k : String) : List (String × α) → Option α
  | [] => none
  | (k', v) :: rest => if k' = k then some v else aget k rest

/-- Replace the first binding for a key, or append a new one (JS `Map.set`). -/
def aset {α : Type} (k : String) (v : α) : List (String × α) → List (String × α)
  | [] => [(k, v)]
  | (k', v') :: rest => if k' = k then (k, v) :: rest else (k', v') :: aset k v rest

/-- Drop every binding for a key (JS `Map.delete`; keys are unique in a
`Map`, so dropping all occurrences coincides). -/
def adel {α : Type} (k : String) : List (String × α) → List (String × α)
  | [] => []
  | (k', v') :: rest => if k' = k then adel k rest else (k', v') :: adel k rest

/-- JS `Set.add` on the list-with-membership model of a `Set`. -/
def addElem (l : List String) (x : String) : List String :=
  if x ∈ l then l else l ++ [x]

/-- One cached analysis record (interface `CachedController`).  The analysis
payload `controllerInfo` is an opaque JSON-serializable value produced by the
external per-file analyzer. -/
structure CachedController where
  filePath : String
  fileHash : String
  fileSize : Nat
  controllerInfo : Json
  dependencies : List String
  lastScanned : Nat
deriving Repr

/-- The in-memory cache metadata (interface `CacheMetadata`). -/
structure CacheMetadata where
  version : String
  timestamp : Nat
  tsConfigHash : Option String
  controllers : List (String × CachedController)
  dependencies : List (String × List String)
deriving Repr

/-- `CacheManager.CACHE_VERSION`. -/
def cacheVersion : String := "1.0.0"

/-- The metadata built by the `CacheManager` constructor: current schema
version, construction timestamp, empty tables. -/
def freshMetadata (now : Nat) : CacheMetadata :=
  { version := cacheVersion
    timestamp := now
    tsConfigHash := none
    controllers := []
    dependencies := [] }

/-- Mutable state of a `CacheManager` instance: the metadata plus the
per-hash-value collision counters (`hashCollisions`). -/
structure CacheManagerState where
  metadata : CacheMetadata
  hashCollisions : List (String × Nat)
deriving Repr

/-- Filesystem model for the cache layer: path to (content hash, byte size)
of the file currently on disk; `none` means the file is missing or
unreadable. -/
abbrev FsModel : Type := List (String × (String × Nat))

/-- `fs.statSync(path).size`, `none` when the stat throws. -/
def statSize (fsm : FsModel) (p : String) : Option Nat :=
  (aget p fsm).map (fun c => c.2)

/-- `CacheManager.calculateHash`: digest of the file content, `""` on a read
error. -/
def calcHash (fsm : FsModel) (p : String) : String :=
  ((aget p fsm).map (fun c => c.1)).getD ""

/-- `CacheManager.getFileSize`: byte size, `0` on a stat error. -/
def getFileSize (fsm : FsModel) (p : String) : Nat :=
  ((aget p fsm).map (fun c => c.2)).getD 0

/-- `CacheManager.trackHashCollision`: bump the per-hash counter; the
escalation message fires when the pre-increment count is at least 3.
Returns the new counter table and whether the escalation fired. -/
def trackHashCollision (cols : List (String × Nat)) (hash : String) :
    List (String × Nat) × Bool :=
  let count := (aget hash cols).getD 0
  (aset hash (count + 1) cols, decide (3 ≤ count))

/-- `CacheManager.hasFileChanged`: two-layer staleness check.  Absent record,
differing hash, failed stat, or (collision case) equal hash with differing
size all report `true`; the collision case also tracks the collision. -/
def hasFileChanged (st : CacheManagerState) (fsm : FsModel) (p : String)
    (currentHash : String) : Bool × CacheManagerState :=
  match aget p st.metadata.controllers with
  | none => (true, st)
  | some cached =>
    if cached.fileHash ≠ currentHash then (true, st)
    else
      match statSize fsm p with
      | none => (true, st)
      | some currentSize =>
        if cached.fileSize ≠ currentSize then
          (true, { st with hashCollisions := (trackHashCollision st.hashCollisions currentHash).1 })
        else (false, st)

/-- `CacheManager.getDependentControllers`: keys of the dependency table whose
set contains the given file. -/
def getDependentControllers (st : CacheManagerState) (filePath : String) : List String :=
  (st.metadata.dependencies.filter (fun e => filePath ∈ e.2)).map (fun e => e.1)

/-- `CacheManager.removeController`: drop the record and the file's own
dependency entry, then purge the file from every other entry's dependency
set, dropping entries that become empty. -/
def removeController (st : CacheManagerState) (filePath : String) : CacheManagerState :=
  { st with metadata :=
    { st.metadata with
      controllers := adel filePath st.metadata.controllers
      dependencies :=
        (adel filePath st.metadata.dependencies).filterMap (fun e =>
          let remaining := e.2.filter (fun x => x ≠ filePath)
          if remaining.isEmpty then none else some (e.1, remaining)) } }

/-- `CacheManager.addDependency`. -/
def addDependency (st : CacheManagerState) (controllerPath dependencyPath : String) :
    CacheManagerState :=
  let deps := st.metadata.dependencies
  let newSet :=
    match aget controllerPath deps with
    | none => [dependencyPath]
    | some s => if dependencyPath ∈ s then s else s ++ [dependencyPath]
  { st with metadata := { st.metadata with dependencies := aset controllerPath newSet deps } }

/-- `CacheManager.setController`. -/
def setController (st : CacheManagerState) (filePath : String) (c : CachedController) :
    CacheManagerState :=
  { st with metadata :=
    { st.metadata with controllers := aset filePath c st.metadata.controllers } }

/-! ## Persistence: `save` serialization, `load` reconstruction -/

/-- Field lookup on a JSON object (JS property access); `none` both when the
field is absent and when the value is not an object. -/
def getField (j : Json) (k : String) : Option Json :=
  match j with
  | .obj fields => aget k fields
  | _ => none

/-- Entries of a parsed JSON object (`Object.entries`); non-objects yield no
entries.  (JS string char-indexing under `Object.entries` is not modelled;
the persisted format only ever stores objects here.) -/
def jsObjEntries (j : Json) : List (String × Json) :=
  match j with
  | .obj fields => fields
  | _ => []

/-- The strings of a parsed JSON array (`new Set(value as string[])`;
non-string members are not modelled, the persisted format only stores
strings here). -/
def jsStrings (j : Json) : List String :=
  match j with
  | .arr elems => elems.filterMap (fun e => match e with | .str s => some s | _ => none)
  | _ => []

/-- Serialization of one cached record, as `JSON.stringify` lays it out. -/
def encodeController (c : CachedController) : Json :=
  .obj [("filePath", .str c.filePath),
        ("fileHash", .str c.fileHash),
        ("fileSize", .num c.fileSize),
        ("controllerInfo", c.controllerInfo),
        ("dependencies", .arr (c.dependencies.map Json.str)),
        ("lastScanned", .num c.lastScanned)]

/-- Reading one cached record back from the parsed document.  The TypeScript
code stores the parsed plain object directly in the `Map`; this decoding
mirrors the field accesses later performed on it (absent fields, which the
code would read as `undefined`, are modelled by defaults). -/
def decodeController (j : Json) : CachedController :=
  { filePath := match getField j "filePath" with | some (.str s) => s | _ => ""
    fileHash := match getField j "fileHash" with | some (.str s) => s | _ => ""
    fileSize := match getField j "fileSize" with | some (.num n) => n | _ => 0
    controllerInfo := (getField j "controllerInfo").getD .null
    dependencies := (getField j "dependencies").elim [] jsStrings
    lastScanned := match getField j "lastScanned" with | some (.num n) => n | _ => 0 }

/-- The document `CacheManager.save` serializes: version and config hash from
the metadata, a fresh timestamp, `Object.fromEntries` of both tables.
`JSON.stringify` drops an `undefined` `tsConfigHash`, so the field is omitted
when absent. -/
def encodeMetadata (m : CacheMetadata) (now : Nat) : Json :=
  .obj ([("version", .str m.version), ("timestamp", .num now)]
    ++ (match m.tsConfigHash with
        | some h => [("tsConfigHash", Json.str h)]
        | none => [])
    ++ [("controllers", .obj (m.controllers.map (fun e => (e.1, encodeController e.2)))),
        ("dependencies", .obj (m.dependencies.map (fun e => (e.1, Json.arr (e.2.map Json.str)))))])

/-- The `load` version check: `parsed.version !== CACHE_VERSION` rejects
everything except the exact current version string. -/
def versionMatches (j : Json) : Bool :=
  match getField j "version" with
  | some (.str v) => v = cacheVersion
  | _ => false

/-- `CacheManager.load`.  `content` is the cache file: `none` when the file is
missing, `some none` when its text does not parse as JSON (`JSON.parse`
throws and the `catch` reports failure), `some (some j)` for a parsed
document.  Failure leaves the in-memory metadata (the constructor-fresh
empty store at the only call site) untouched and reports `false`.  A missing
or non-numeric `timestamp` makes the JS age comparison `NaN > ttl`, which is
`false`, so only a present numeric timestamp can expire the snapshot. -/
def load (enabled : Bool) (cur : CacheMetadata) (content : Option (Option Json))
    (now ttl : Nat) : Bool × CacheMetadata :=
  if !enabled then (false, cur)
  else
    match content with
    | none => (false, cur)
    | some none => (false, cur)
    | some (some j) =>
      if !versionMatches j then (false, cur)
      else
        let expired :=
          match getField j "timestamp" with
          | some (.num t) => decide (now - t > ttl)
          | _ => false
        if expired then (false, cur)
        else
          (true,
            { version := match getField j "version" with | some (.str s) => s | _ => ""
              timestamp := match getField j "timestamp" with | some (.num t) => t | _ => 0
              tsConfigHash := match getField j "tsConfigHash" with | some (.str s) => some s | _ => none
              controllers :=
                (jsObjEntries ((getField j "controllers").getD (.obj []))).map
                  (fun e => (e.1, decodeController e.2))
              dependencies :=
                (jsObjEntries ((getField j "dependencies").getD (.obj []))).map
                  (fun e => (e.1, jsStrings e.2)) })

/-! ## The byte-level write performed by `save` -/

mutual

/-- A plain JSON printer standing in for `JSON.stringify` (indentation not
reproduced; only the fact that the document is one contiguous string
matters for the write-atomicity analysis). -/
def jsonToString : Json → String
  | .null => "null"
  | .bool b => if b then "true" else "false"
  | .num n => toString n
  | .str s => "\"" ++ s ++ "\""
  | .arr elems => "[" ++ jsonListToString elems ++ "]"
  | .obj fields => "\x7b" ++ jsonFieldsToString fields ++ "\x7d"

def jsonListToString : List Json → String
  | [] => ""
  | [x] => jsonToString x
  | x :: rest => jsonToString x ++ "," ++ jsonListToString rest

def jsonFieldsToString : List (String × Json) → String
  | [] => ""
  | [(k, v)] => "\"" ++ k ++ "\":" ++ jsonToString v
  | (k, v) :: rest => "\"" ++ k ++ "\":" ++ jsonToString v ++ "," ++ jsonFieldsToString rest

end

/-- A filesystem operation observable from `save`. -/
inductive FsOp where
  | write (path : String) (content : String) : FsOp
  | rename (src dst : String) : FsOp
deriving Repr, DecidableEq

/-- Text contents on disk: path to file content. -/
abbrev DiskFs : Type := List (String × String)

/-- Effect of a completed operation on the disk. -/
def applyFsOp (fs : DiskFs) (op : FsOp) : DiskFs :=
  match op with
  | .write p c => aset p c fs
  | .rename src dst =>
    match aget src fs with
    | some c => aset dst c (adel src fs)
    | none => fs

/-- Disk states exposed if the process is killed mid-operation: a `write`
truncates and then appends, so an interrupted write leaves some proper
prefix (possibly empty) of the new content at the path; a `rename` is
atomic.  The completed write is the state after the operation, covered by
`crashStates` itself. -/
def midFsStates (fs : DiskFs) (op : FsOp) : List DiskFs :=
  match op with
  | .write p c => (List.range c.length).map (fun k => aset p (c.take k) fs)
  | .rename _ _ => []

/-- All disk states reachable if the process is killed at any point while the
operation sequence runs (including before the first and after the last). -/
def crashStates (fs : DiskFs) : List FsOp → List DiskFs
  | [] => [fs]
  | op :: rest => fs :: midFsStates fs op ++ crashStates (applyFsOp fs op) rest

/-- The text `CacheManager.save` writes. -/
def saveContent (m : CacheMetadata) (now : Nat) : String :=
  jsonToString (encodeMetadata m now)

/-- The filesystem operations `CacheManager.save` performs: when caching is
enabled, a single `fs.writeFileSync` of the serialized snapshot directly to
the cache file path. -/
def saveOps (enabled : Bool) (cachePath : String) (m : CacheMetadata) (now : Nat) :
    List FsOp :=
  if enabled then [FsOp.write cachePath (saveContent m now)] else []

/-! ## DependencyTracker -/

/-- State of a `DependencyTracker`: forward dependency graph, reverse
dependency graph, and the inheritance index, each a `Map<string, Set<string>>`. -/
structure Tracker where
  dependencyGraph : List (String × List String)
  reverseDependencyGraph : List (String × List String)
  inheritanceGraph : List (String × List String)
deriving Repr

/-- `DependencyTracker.getDependents`: the reverse-graph entry, or empty. -/
def getDependentsG (tr : Tracker) (p : String) : List String :=
  (aget p tr.reverseDependencyGraph).getD []

/-- `DependencyTracker.getInheritors`: every key of the inheritance index
whose set contains the file. -/
def getInheritorsG (tr : Tracker) (p : String) : List String :=
  (tr.inheritanceGraph.filter (fun e => p ∈ e.2)).map (fun e => e.1)

/-- One hop of `getAffectedFiles`: the plain reverse dependents followed by
the inheritance-reverse dependents, in the order they are pushed. -/
def stepList (tr : Tracker) (p : String) : List String :=
  getDependentsG tr p ++ getInheritorsG tr p

/-- The worklist loop of `DependencyTracker.getAffectedFiles`, with an
explicit fuel argument; `none` reports fuel exhaustion.  Each iteration pops
the queue head, skips it when already visited, and otherwise adds both edge
kinds to the affected set and the queue. -/
def affectedAux (tr : Tracker) : Nat → List String → List String → List String →
    Option (List String)
  | 0, _, _, _ => none
  | _ + 1, [], _, affected => some affected
  | fuel + 1, current :: rest, visited, affected =>
    if current ∈ visited then affectedAux tr fuel rest visited affected
    else
      affectedAux tr fuel (rest ++ stepList tr current) (current :: visited)
        (affected ++ stepList tr current)

/-- Every node the traversal from `p` can ever enqueue: `p` itself, members
of reverse-dependency sets, and keys of the inheritance index. -/
def reachUniverse (tr : Tracker) (p : String) : List String :=
  p :: ((tr.reverseDependencyGraph.map (fun e => e.2)).flatten
    ++ tr.inheritanceGraph.map (fun e => e.1))

/-- Upper bound on how many nodes one iteration can push. -/
def degBound (tr : Tracker) : Nat :=
  (tr.reverseDependencyGraph.map (fun e => e.2.length)).sum + tr.inheritanceGraph.length

/-- Fuel sufficient for the traversal to drain its queue (proved below). -/
def affectedBound (tr : Tracker) (p : String) : Nat :=
  2 + (reachUniverse tr p).length * (1 + degBound tr)

/-- `DependencyTracker.getAffectedFiles`: run the worklist loop from the
changed file with sufficient fuel. -/
def getAffectedFiles (tr : Tracker) (p : String) : List String :=
  (affectedAux tr (affectedBound tr p) [p] [] []).getD []

/-- One reverse edge as traversed by `getAffectedFiles`: `y` is a plain
reverse dependent or an inheritance-reverse dependent of `x`. -/
def EdgeStep (tr : Tracker) (x y : String) : Prop :=
  y ∈ stepList tr x

/-- `y` is reachable from `start` by one or more reverse-dependency or
reverse-inheritance hops (a direct or transitive dependent). -/
inductive ReachPlus (tr : Tracker) (start : String) : String → Prop where
  | base {y : String} : EdgeStep tr start y → ReachPlus tr start y
  | step {y z : String} : ReachPlus tr start y → EdgeStep tr y z → ReachPlus tr start z

/-- The shared cleanup loop of `removeDependency` and `updateDependency`:
delete the file from the reverse set of one of its dependencies, dropping
the reverse entry when it becomes empty. -/
def eraseReverse (p : String) (rg : List (String × List String)) (dep : String) :
    List (String × List String) :=
  match aget dep rg with
  | none => rg
  | some s =>
    if (s.filter (fun x => x ≠ p)).isEmpty then adel dep rg
    else aset dep (s.filter (fun x => x ≠ p)) rg

/-- `DependencyTracker.removeDependency`: remove the file's reverse entries
at each of its forward dependencies, then delete its forward entry and its
reverse entry.  (No other entry's forward set is touched.) -/
def removeDependency (tr : Tracker) (p : String) : Tracker :=
  let rg :=
    match aget p tr.dependencyGraph with
    | some deps => deps.foldl (eraseReverse p) tr.reverseDependencyGraph
    | none => tr.reverseDependencyGraph
  { tr with
    dependencyGraph := adel p tr.dependencyGraph
    reverseDependencyGraph := adel p rg }

/-- `Set.add` of the file into one dependency's reverse entry. -/
def addReverse (p : String) (rg : List (String × List String)) (dep : String) :
    List (String × List String) :=
  match aget dep rg with
  | none => aset dep [p] rg
  | some s => aset dep (if p ∈ s then s else s ++ [p]) rg

/-- `DependencyTracker.updateDependency`: drop the file's old reverse
entries, replace its forward entry with the freshly analyzed dependency list
(`analyzeDependencies` is the external AST analysis; its output enters as
`newDeps`), and add the file to each new dependency's reverse entry. -/
def updateDependency (tr : Tracker) (p : String) (newDeps : List String) : Tracker :=
  let rg :=
    match aget p tr.dependencyGraph with
    | some oldDeps => oldDeps.foldl (eraseReverse p) tr.reverseDependencyGraph
    | none => tr.reverseDependencyGraph
  { tr with
    dependencyGraph := aset p newDeps tr.dependencyGraph
    reverseDependencyGraph := newDeps.foldl (addReverse p) rg }

/-- `DependencyTracker.isDtoFile`: the basename without its `.ts` extension
ends, case-insensitively, in one of the shared-type markers. -/
def isDtoFile (p : String) : Bool :=
  let base := (p.splitOn "/").getLastD p
  let name := if base.endsWith ".ts" then base.dropRight 3 else base
  let lower := name.toLower
  lower.endsWith ".dto" || lower.endsWith ".model" || lower.endsWith ".entity"
    || lower.endsWith ".interface" || lower.endsWith ".type"

/-! ## IncrementalScannerService -/

/-- Outcome of the external ts-morph analysis of one file, as consumed by
`scanFile`: the file could not be loaded into the project, it holds no
`@Controller` class (the cache entry is then removed), or it is a controller
with an extracted payload and dependency list. -/
inductive AnalyzeResult where
  | loadError : AnalyzeResult
  | notController : AnalyzeResult
  | controller (info : Json) (deps : List String) : AnalyzeResult

/-- The per-file analyzer as an oracle: what analyzing each path yields. -/
abbrev Analyzer : Type := String → AnalyzeResult

/-- The dependency list `DependencyTracker.analyzeDependencies` extracts for
a file (empty when the file is not an analyzable controller source). -/
def analyzedDeps (analyze : Analyzer) (p : String) : List String :=
  match analyze p with
  | .controller _ deps => deps
  | _ => []

/-- `IncrementalScannerService.scanFile`.  Returns the controller payload (or
`none`), the updated cache state, and whether the per-file analyzer ran.
When a cached record exists and the two-layer check reports the file
unchanged, the cached payload is returned and the analyzer is not invoked. -/
def scanFile (analyze : Analyzer) (fsm : FsModel) (now : Nat)
    (st : CacheManagerState) (p : String) : Option Json × CacheManagerState × Bool :=
  let fileHash := calcHash fsm p
  let fileSize := getFileSize fsm p
  let hit :=
    match aget p st.metadata.controllers with
    | some cached =>
      let chk := hasFileChanged st fsm p fileHash
      if chk.1 then none else some (cached.controllerInfo, chk.2)
    | none => none
  match hit with
  | some (info, st') => (some info, st', false)
  | none =>
    match analyze p with
    | .loadError => (none, st, true)
    | .notController => (none, removeController st p, true)
    | .controller info deps =>
      let record : CachedController :=
        { filePath := p
          fileHash := fileHash
          fileSize := fileSize
          controllerInfo := info
          dependencies := deps
          lastScanned := now }
      let st1 := setController st p record
      let st2 := deps.foldl (fun acc dep => addDependency acc p dep) st1
      (some info, st2, true)

inductive FileEventType where
  | add : FileEventType
  | change : FileEventType
  | unlink : FileEventType
deriving Repr, DecidableEq

/-- A file change event from the watcher. -/
structure FileChangeEvent where
  type : FileEventType
  filePath : String
deriving Repr

/-- `IncrementalScannerService.handleFileDelete`: look up the direct
dependent controllers of the deleted file in the cache's dependency table
(still present, removal happens next), add them to the affected set, then
remove the file from the cache store and the dependency graph.  (The
ts-morph project bookkeeping has no cache-visible effect.) -/
def handleFileDelete (affected : List String) (st : CacheManagerState) (tr : Tracker)
    (p : String) : List String × CacheManagerState × Tracker :=
  let dependents := getDependentControllers st p
  (dependents.foldl addElem affected, removeController st p, removeDependency tr p)

/-- One event of the collecting phase of `processFileChanges`: deletions go
through `handleFileDelete`; other events add their own path to the affected
set and, for shared-type (DTO-convention) files, also the file's current
direct dependents from the dependency graph. -/
def collectStep (acc : List String × CacheManagerState × Tracker) (e : FileChangeEvent) :
    List String × CacheManagerState × Tracker :=
  let (affected, st, tr) := acc
  match e.type with
  | .unlink => handleFileDelete affected st tr e.filePath
  | _ =>
    let affected1 := addElem affected e.filePath
    let affected2 :=
      if isDtoFile e.filePath then (getDependentsG tr e.filePath).foldl addElem affected1
      else affected1
    (affected2, st, tr)

/-- The collecting phase of `processFileChanges`: the affected set (with the
cache and tracker states it leaves behind) accumulated over the batch. -/
def collectAffected (st : CacheManagerState) (tr : Tracker) (events : List FileChangeEvent) :
    List String × CacheManagerState × Tracker :=
  events.foldl collectStep ([], st, tr)

/-- `IncrementalScannerService.processFileChanges`: collect the affected set,
then scan every affected path still on disk, recording each result and
refreshing the dependency graph for successful scans; the final `save()` is
the write modelled by `saveOps`. -/
def processFileChanges (analyze : Analyzer) (fsm : FsModel) (now : Nat)
    (st : CacheManagerState) (tr : Tracker) (events : List FileChangeEvent) :
    List (String × Option Json) × CacheManagerState × Tracker :=
  let (affected, st1, tr1) := collectAffected st tr events
  affected.foldl
    (fun acc p =>
      let (results, st, tr) := acc
      if (aget p fsm).isSome then
        let (info, st', _) := scanFile analyze fsm now st p
        let tr' :=
          match info with
          | some _ => updateDependency tr p (analyzedDeps analyze p)
          | none => tr
        (aset p info results, st', tr')
      else acc)
    ([], st1, tr1)

/-! ## Dependent relations over the cache dependency table -/

/-- `q`'s cached dependency set contains `p`: the direct-dependent relation
`getDependentControllers` answers. -/
abbrev dependsOnCache (st : CacheManagerState) (q p : String) : Prop :=
  p ∈ (aget q st.metadata.dependencies).getD []

/-- `q` is a direct or transitive dependent of `p` per the cache's dependency
table (the affected files the spec expects a removal of `p` to mark). -/
inductive TransDependent (st : CacheManagerState) (p : String) : String → Prop where
  | base {q : String} : dependsOnCache st q p → TransDependent st p q
  | step {q r : String} : TransDependent st p q → dependsOnCache st r q →
      TransDependent st p r

/-! ## Concrete states used as witnesses and counterexamples -/

/-- A cache record with payload `info`, hash `h`, size `n`. -/
def mkRecord (p h : String) (n : Nat) (info : Json) (deps : List String) :
    CachedController :=
  { filePath := p, fileHash := h, fileSize := n, controllerInfo := info
    dependencies := deps, lastScanned := 0 }

/-- Sample metadata with one controller record and one dependency entry. -/
def sampleMeta : CacheMetadata :=
  { version := cacheVersion
    timestamp := 5
    tsConfigHash := some "cfg"
    controllers := [("a.ts", mkRecord "a.ts" "h1" 10 (.str "payloadA") ["b.ts"])]
    dependencies := [("a.ts", ["b.ts"])] }

/-- Cache state over a three-level dependency chain: controller `A.ts`
depends on `B.ts`, which depends on `C.ts` (A extends B extends C). -/
def chainState : CacheManagerState :=
  { metadata :=
    { version := cacheVersion
      timestamp := 0
      tsConfigHash := none
      controllers :=
        [("A.ts", mkRecord "A.ts" "ha" 1 (.str "A") ["B.ts"]),
         ("B.ts", mkRecord "B.ts" "hb" 1 (.str "B") ["C.ts"]),
         ("C.ts", mkRecord "C.ts" "hc" 1 (.str "C") [])]
      dependencies := [("A.ts", ["B.ts"]), ("B.ts", ["C.ts"])] }
    hashCollisions := [] }

/-- Tracker matching `chainState`: forward edges A→B and B→C, their reverse
edges, and the inheritance index recording A extends B and B extends C. -/
def chainTracker : Tracker :=
  { dependencyGraph := [("A.ts", ["B.ts"]), ("B.ts", ["C.ts"])]
    reverseDependencyGraph := [("B.ts", ["A.ts"]), ("C.ts", ["B.ts"])]
    inheritanceGraph := [("A.ts", ["B.ts"]), ("B.ts", ["C.ts"])] }

/-- Tracker in which `q.ts` depends on `p.ts` (symmetric indices). -/
def pairTracker : Tracker :=
  { dependencyGraph := [("q.ts", ["p.ts"])]
    reverseDependencyGraph := [("p.ts", ["q.ts"])]
    inheritanceGraph := [] }

/-- A state with one cached record for `a.ts` (hash `"h"`, size 4). -/
def hitState : CacheManagerState :=
  { metadata :=
    { version := cacheVersion
      timestamp := 0
      tsConfigHash := none
      controllers := [("a.ts", mkRecord "a.ts" "h" 4 (.str "payload") [])]
      dependencies := [] }
    hashCollisions := [] }

/-- Disk on which `a.ts` still has hash `"h"` and size 4. -/
def hitFs : FsModel := [("a.ts", ("h", 4))]

/-- An analyzer oracle that reports every file as a controller with no
dependencies (the scan result should nevertheless be served from cache). -/
def constAnalyzer : Analyzer := fun _ => .controller (.str "fresh") []

/-- A state whose record for `a.ts` has hash `"h"` and size 4, with three
collisions already recorded for hash `"h"`. -/
def collisionState : CacheManagerState :=
  { metadata :=
    { version := cacheVersion
      timestamp := 0
      tsConfigHash := none
      controllers := [("a.ts", mkRecord "a.ts" "h" 4 (.str "x") [])]
      dependencies := [] }
    hashCollisions := [("h", 3)] }

/-- Disk on which `a.ts` hashes to `"h"` but now has size 9: a fingerprint
collision relative to `collisionState`. -/
def collisionFs : FsModel := [("a.ts", ("h", 9))]

/-! ## Association-list and set-model lemmas -/

theorem aget_aset_self {α : Type} (k : String) (v : α) (l : List (String × α)) :
    aget k (aset k v l) = some v := by
  induction l with
  | nil => simp [aget, aset]
  | cons e rest ih =>
    obtain ⟨k1, v1⟩ := e
    by_cases h : k1 = k <;> simp [aget, aset, h, ih]

theorem aget_aset_ne {α : Type} {k k' : String} (v : α) (l : List (String × α))
    (h : k' ≠ k) : aget k' (aset k v l) = aget k' l := by
  induction l with
  | nil => simp [aget, aset, Ne.symm h]
  | cons e rest ih =>
    obtain ⟨k1, v1⟩ := e
    by_cases he : k1 = k
    · subst he
      simp [aget, aset, Ne.symm h]
    · simp only [aset, he, if_false, aget]
      by_cases he' : k1 = k' <;> simp [he', ih]

theorem aget_adel_self {α : Type} (k : String) (l : List (String × α)) :
    aget k (adel k l) = none := by
  induction l with
  | nil => simp [aget, adel]
  | cons e rest ih =>
    obtain ⟨k1, v1⟩ := e
    by_cases h : k1 = k <;> simp [aget, adel, h, ih]

theorem aget_adel_ne {α : Type} {k k' : String} (l : List (String × α))
    (h : k' ≠ k) : aget k' (adel k l) = aget k' l := by
  induction l with
  | nil => simp [adel]
  | cons e rest ih =>
    obtain ⟨k1, v1⟩ := e
    by_cases he : k1 = k
    · subst he
      simp [adel, aget, ih, Ne.symm h]
    · simp only [adel, he, if_false, aget]
      by_cases he' : k1 = k' <;> simp [he', ih]

theorem aget_eq_some_mem {α : Type} {k : String} {v : α} :
    ∀ {l : List (String × α)}, aget k l = some v → (k, v) ∈ l := by
  intro l
  induction l with
  | nil => simp [aget]
  | cons e rest ih =>
    obtain ⟨k1, v1⟩ := e
    by_cases h : k1 = k
    · subst h
      simp only [aget, if_true]
      intro hv
      cases hv
      exact List.mem_cons_self _ _
    · simp only [aget, h, if_false]
      intro hv
      exact List.mem_cons_of_mem _ (ih hv)

theorem mem_addElem {l : List String} {x y : String} :
    y ∈ addElem l x ↔ y ∈ l ∨ y = x := by
  by_cases h : x ∈ l
  · simp only [addElem, h, if_true]
    constructor
    · exact Or.inl
    · rintro (hy | rfl) <;> [exact hy; exact h]
  · simp [addElem, h]

theorem mem_foldl_addElem {xs : List String} {acc : List String} {y : String} :
    y ∈ xs.foldl addElem acc ↔ y ∈ acc ∨ y ∈ xs := by
  induction xs generalizing acc with
  | nil => simp
  | cons x rest ih =>
    simp only [List.foldl_cons, ih, mem_addElem, List.mem_cons]
    tauto

/-! ## C3: the two-layer staleness check -/

/-- C3: `hasFileChanged` reports "unchanged" (`false`) exactly when a cached
record exists, its fingerprint equals the current one, and the file stats
successfully to the cached byte size.  Consequently a path absent from the
store, a fingerprint mismatch, and an equal fingerprint with a differing
size (a collision) are all reported as changed. -/
theorem hasFileChanged_false_iff (st : CacheManagerState) (fsm : FsModel)
    (p currentHash : String) :
    (hasFileChanged st fsm p currentHash).1 = false ↔
      ∃ c, aget p st.metadata.controllers = some c ∧ c.fileHash = currentHash ∧
        statSize fsm p = some c.fileSize := by
  unfold hasFileChanged
  cases hc : aget p st.metadata.controllers with
  | none => simp
  | some cached =>
    by_cases hh : cached.fileHash = currentHash
    · cases hs : statSize fsm p with
      | none => simp [hh, hs]
      | some sz =>
        by_cases hsz : cached.fileSize = sz
        · subst hsz
          simp [hh, hs]
        · apply iff_of_false
          · simp [hh, hsz]
          · rintro ⟨c, hcc, hhash, hss⟩
            injection hcc with hcc
            subst hcc
            injection hss with hss
            exact absurd hss.symm hsz
    · simp [hh]

/-! ## C7: collision counting and escalation -/

/-- C7 counterexample: starting from no recorded collisions, the third
collision on the same hash value brings its counter to 3 but does not fire
the escalation, contradicting the claim that the warning fires once the
count reaches 3. -/
theorem third_collision_does_not_escalate :
    (trackHashCollision (trackHashCollision (trackHashCollision [] "h").1 "h").1 "h").2
        = false
    ∧ aget "h"
        (trackHashCollision (trackHashCollision (trackHashCollision [] "h").1 "h").1 "h").1
        = some 3 := by
  constructor <;> rfl

/-- C7 (amended): every detected collision increments the per-hash-value
counter, and the escalation fires exactly when the pre-increment count is at
least 3 — that is, on the fourth and later collisions for that hash value,
once the counter reaches 4.  The final conjunct ties detection to the
counter: the collision branch of `hasFileChanged` (equal fingerprint,
differing size) stores exactly the incremented table. -/
theorem collision_counter_increment_and_escalation
    (cols : List (String × Nat)) (hash : String) :
    aget hash (trackHashCollision cols hash).1 = some ((aget hash cols).getD 0 + 1)
    ∧ ((trackHashCollision cols hash).2 = true ↔ 3 ≤ (aget hash cols).getD 0)
    ∧ (∀ (st : CacheManagerState) (fsm : FsModel) (p : String) (c : CachedController)
        (sz : Nat),
        aget p st.metadata.controllers = some c →
        c.fileHash = hash →
        statSize fsm p = some sz →
        c.fileSize ≠ sz →
        (hasFileChanged st fsm p hash).2.hashCollisions
          = (trackHashCollision st.hashCollisions hash).1) := by
  refine ⟨aget_aset_self _ _ _, by simp [trackHashCollision], ?_⟩
  intro st fsm p c sz hc hh hs hsz
  unfold hasFileChanged
  simp [hc, hh, hs, hsz]

/-- C7 amended-claim witness at concrete inputs: with a recorded count of 3
for hash `"h"`, one more collision brings the counter to 4 and escalates,
and detecting it through `hasFileChanged` on a size mismatch stores exactly
the incremented table. -/
theorem collision_counter_witness :
    aget "h" (trackHashCollision [("h", 3)] "h").1 = some 4
    ∧ (trackHashCollision [("h", 3)] "h").2 = true
    ∧ (hasFileChanged collisionState collisionFs "a.ts" "h").2.hashCollisions
        = (trackHashCollision [("h", 3)] "h").1 :=
  ⟨((collision_counter_increment_and_escalation [("h", 3)] "h").1).trans (by rfl),
   ((collision_counter_increment_and_escalation [("h", 3)] "h").2.1).mpr (by decide),
   (collision_counter_increment_and_escalation [("h", 3)] "h").2.2 collisionState
     collisionFs "a.ts" (mkRecord "a.ts" "h" 4 (.str "x") []) 9 (by rfl) (by rfl)
     (by rfl) (by decide)⟩

/-! ## C5: `load` fails closed -/

/-- C5: `load` fails closed.  On a missing cache file, unparseable content, a
schema-version mismatch, or a snapshot older than the time-to-live, it
reports `false` and leaves the store at the constructor-fresh empty
metadata; a version-mismatched file gives literally the same outcome as a
missing one. -/
theorem load_fails_closed (t0 now ttl t : Nat) (j : Json) :
    load true (freshMetadata t0) none now ttl = (false, freshMetadata t0)
    ∧ load true (freshMetadata t0) (some none) now ttl = (false, freshMetadata t0)
    ∧ (versionMatches j = false →
        load true (freshMetadata t0) (some (some j)) now ttl = (false, freshMetadata t0))
    ∧ (getField j "timestamp" = some (.num t) → now - t > ttl →
        load true (freshMetadata t0) (some (some j)) now ttl = (false, freshMetadata t0))
    ∧ (versionMatches j = false →
        load true (freshMetadata t0) (some (some j)) now ttl
          = load true (freshMetadata t0) none now ttl) := by
  refine ⟨rfl, rfl, ?_, ?_, ?_⟩
  · intro hv
    simp [load, hv]
  · intro ht hexp
    cases hvm : versionMatches j with
    | false => simp [load, hvm]
    | true => simp [load, hvm, ht, hexp]
  · intro hv
    simp [load, hv]

/-- C5 witness: a parsed document whose `version` is `"0.9.9"` is rejected
exactly like a missing file, and a validly-versioned snapshot written at
time 0 read at time 100 with a 10ms time-to-live is rejected. -/
theorem load_fails_closed_witness :
    load true (freshMetadata 7) (some (some (Json.obj [("version", Json.str "0.9.9")])))
        100 10 = (false, freshMetadata 7)
    ∧ load true (freshMetadata 7)
        (some (some (Json.obj [("version", Json.str "1.0.0"), ("timestamp", Json.num 0)])))
        100 10 = (false, freshMetadata 7)
    ∧ load true (freshMetadata 7) (some (some (Json.obj [("version", Json.str "0.9.9")])))
        100 10 = load true (freshMetadata 7) none 100 10 :=
  ⟨(load_fails_closed 7 100 10 0 (Json.obj [("version", Json.str "0.9.9")])).2.2.1
      (by decide),
   (load_fails_closed 7 100 10 0
      (Json.obj [("version", Json.str "1.0.0"), ("timestamp", Json.num 0)])).2.2.2.1
      (by rfl) (by decide),
   (load_fails_closed 7 100 10 0 (Json.obj [("version", Json.str "0.9.9")])).2.2.2.2
      (by decide)⟩

/-! ## C4: `save` / `load` round-trip -/

theorem jsStrings_encode (l : List String) :
    jsStrings (.arr (l.map Json.str)) = l := by
  induction l with
  | nil => rfl
  | cons x rest ih =>
    simp only [jsStrings, List.map_cons, List.filterMap_cons] at ih ⊢
    rw [ih]

theorem decode_encode_controller (c : CachedController) :
    decodeController (encodeController c) = c := by
  obtain ⟨fp, fh, fs, info, deps, ls⟩ := c
  simp [decodeController, encodeController, getField, aget, jsStrings_encode]

theorem map_decode_encode_controllers (l : List (String × CachedController)) :
    l.map ((fun e => (e.1, decodeController e.2)) ∘ fun e => (e.1, encodeController e.2))
      = l := by
  induction l with
  | nil => rfl
  | cons e rest ih => simp [ih, Function.comp, decode_encode_controller]

theorem map_decode_encode_deps (l : List (String × List String)) :
    l.map ((fun e => (e.1, jsStrings e.2)) ∘ fun e => (e.1, Json.arr (e.2.map Json.str)))
      = l := by
  induction l with
  | nil => rfl
  | cons e rest ih => simp [ih, Function.comp, jsStrings_encode]

/-- C4: a `save`d snapshot `load`ed back within the time-to-live reconstructs
an equivalent store — in fact the same record table and dependency table
(hence the same paths, fingerprints, sizes, and dependency sets), with only
the timestamp refreshed to the save time.  The `Nodup` hypotheses record
that the tables come from JS `Map`s, whose keys are unique, so the JSON
object round-trip cannot collapse entries. -/
theorem save_load_roundtrip (m : CacheMetadata) (fresh : CacheMetadata)
    (now now' ttl : Nat)
    (hver : m.version = cacheVersion)
    (hage : now' - now ≤ ttl)
    (hnc : (m.controllers.map Prod.fst).Nodup)
    (hnd : (m.dependencies.map Prod.fst).Nodup) :
    load true fresh (some (some (encodeMetadata m now))) now' ttl
      = (true, { m with timestamp := now }) := by
  obtain ⟨ver, ts, cfg, ctrls, deps⟩ := m
  simp only at hver
  subst hver
  cases cfg with
  | none =>
    simp [load, encodeMetadata, versionMatches, getField, aget, Nat.not_lt.mpr hage,
      jsObjEntries, map_decode_encode_controllers, map_decode_encode_deps]
  | some h =>
    simp [load, encodeMetadata, versionMatches, getField, aget, Nat.not_lt.mpr hage,
      jsObjEntries, map_decode_encode_controllers, map_decode_encode_deps]

/-- C4 witness: round-tripping `sampleMeta` saved at time 10 and loaded at
time 11 under a 100ms time-to-live. -/
theorem save_load_roundtrip_witness :
    load true (freshMetadata 0) (some (some (encodeMetadata sampleMeta 10))) 11 100
      = (true, { sampleMeta with timestamp := 10 }) :=
  save_load_roundtrip sampleMeta (freshMetadata 0) 10 11 100 rfl (by decide)
    (by decide) (by decide)

/-! ## C8: the `save` write is a single direct write, not temp-then-replace -/

/-- C8 counterexample: killing the process mid-write during `save` of even
the fresh empty store can leave, at the cache path, a one-character file
that is neither the previous disk state (no file) nor the complete
snapshot — `save` writes directly to the cache path with no temporary file
and rename, so it is not atomic from the caller's perspective. -/
theorem save_crash_leaves_partial_file :
    aset "scramble-cache.json" ((saveContent (freshMetadata 0) 0).take 1) []
        ∈ crashStates [] (saveOps true "scramble-cache.json" (freshMetadata 0) 0)
    ∧ aget "scramble-cache.json"
        (aset "scramble-cache.json" ((saveContent (freshMetadata 0) 0).take 1) [])
        ≠ aget "scramble-cache.json" ([] : DiskFs)
    ∧ aget "scramble-cache.json"
        (aset "scramble-cache.json" ((saveContent (freshMetadata 0) 0).take 1) [])
        ≠ some (saveContent (freshMetadata 0) 0) := by
  refine ⟨?_, by decide, by decide⟩
  show _ ∈ crashStates [] (saveOps true "scramble-cache.json" (freshMetadata 0) 0)
  decide

/-- C8 (amended): with caching enabled, `save` performs exactly one
filesystem operation — a single direct `write` of the serialized snapshot to
the cache file path, no temporary file and no rename — and therefore a crash
leaves the cache path holding the old content, the complete new snapshot, or
some proper prefix of it (a possibly corrupt half-written file). -/
theorem save_single_direct_write (cachePath : String) (m : CacheMetadata) (now : Nat)
    (fs0 : DiskFs) :
    saveOps true cachePath m now = [FsOp.write cachePath (saveContent m now)]
    ∧ ∀ fs ∈ crashStates fs0 (saveOps true cachePath m now),
        aget cachePath fs = aget cachePath fs0
        ∨ aget cachePath fs = some (saveContent m now)
        ∨ ∃ k, k < (saveContent m now).length
            ∧ aget cachePath fs = some ((saveContent m now).take k) := by
  refine ⟨rfl, ?_⟩
  intro fs hfs
  simp only [saveOps, if_true, crashStates, midFsStates, applyFsOp, List.mem_cons,
    List.mem_append, List.mem_map, List.mem_range, List.mem_singleton] at hfs
  rcases hfs with (rfl | ⟨k, hk, hfs⟩) | hfs | hfs
  · exact Or.inl rfl
  · exact Or.inr (Or.inr ⟨k, hk, hfs ▸ aget_aset_self _ _ _⟩)
  · rw [hfs]
    exact Or.inr (Or.inl (aget_aset_self _ _ _))
  · exact absurd hfs (List.not_mem_nil _)

/-- C8 amended-claim witness: the characterization applied to the concrete
`save` of the fresh store over an empty disk. -/
theorem save_single_direct_write_witness :
    saveOps true "scramble-cache.json" (freshMetadata 0) 0
        = [FsOp.write "scramble-cache.json" (saveContent (freshMetadata 0) 0)]
    ∧ (aget "scramble-cache.json" ([] : DiskFs) = aget "scramble-cache.json" ([] : DiskFs)
        ∨ aget "scramble-cache.json" ([] : DiskFs) = some (saveContent (freshMetadata 0) 0)
        ∨ ∃ k, k < (saveContent (freshMetadata 0) 0).length
            ∧ aget "scramble-cache.json" ([] : DiskFs)
                = some ((saveContent (freshMetadata 0) 0).take k)) :=
  ⟨(save_single_direct_write "scramble-cache.json" (freshMetadata 0) 0 []).1,
   (save_single_direct_write "scramble-cache.json" (freshMetadata 0) 0 []).2 []
     (by simp [saveOps, crashStates])⟩

/-! ## C1: what a removal adds to the affected set -/

/-- C1 counterexample: in the three-level chain where controller `A.ts`
depends on `B.ts` and `B.ts` depends on `C.ts` (A extends B extends C),
`A.ts` is a transitive dependent of `C.ts`, yet processing the batch that
removes `C.ts` produces an affected set without `A.ts`:
`handleFileDelete` consults only the direct dependents recorded in the
cache's dependency table, not the transitive closure. -/
theorem delete_misses_transitive_dependent :
    TransDependent chainState "C.ts" "A.ts"
    ∧ "A.ts" ∉
        (collectAffected chainState chainTracker
          [{ type := FileEventType.unlink, filePath := "C.ts" }]).1 := by
  constructor
  · exact @TransDependent.step chainState "C.ts" "B.ts" "A.ts"
      (@TransDependent.base chainState "C.ts" "B.ts" (by decide)) (by decide)
  · decide

/-- C1 (amended): for a removed path `p`, the batch-processing delete step
adds exactly the direct dependent controllers recorded for `p` in the
pre-removal cache dependency table to the affected set (so they are computed
before `p` is removed), and then removes `p` from the cache store and the
dependency graph; transitive and inheritance-chain dependents beyond those
direct entries are not added. -/
theorem handleFileDelete_adds_direct_dependents (affected : List String)
    (st : CacheManagerState) (tr : Tracker) (p x : String) :
    (x ∈ (handleFileDelete affected st tr p).1 ↔
      x ∈ affected ∨ x ∈ getDependentControllers st p)
    ∧ aget p (handleFileDelete affected st tr p).2.1.metadata.controllers = none
    ∧ aget p (handleFileDelete affected st tr p).2.2.dependencyGraph = none := by
  refine ⟨mem_foldl_addElem, ?_, ?_⟩
  · exact aget_adel_self _ _
  · exact aget_adel_self _ _

/-! ## C2: `removeDependency` and the symmetry invariant -/

/-- C2 counterexample: with `q.ts` depending on `p.ts` (symmetric indices),
`removeDependency p.ts` leaves `p.ts` in `q.ts`'s forward set while erasing
`p.ts`'s reverse entry, so `p.ts` is not removed as a forward-edge member of
other entries and the symmetry invariant (`reverse[d]` contains `q` iff
`forward[q]` contains `d`) is violated. -/
theorem removeDependency_breaks_symmetry :
    "p.ts" ∈ (aget "q.ts" (removeDependency pairTracker "p.ts").dependencyGraph).getD []
    ∧ "q.ts" ∉
        (aget "p.ts" (removeDependency pairTracker "p.ts").reverseDependencyGraph).getD []
  := by decide

theorem mem_filter_ne (s : List String) (p q : String) :
    q ∈ s.filter (fun x => x ≠ p) ↔ q ∈ s ∧ q ≠ p := by
  simp [List.mem_filter]

theorem eq_of_filter_ne_nil {s : List String} {p : String}
    (h : s.filter (fun x => x ≠ p) = []) {q : String} (hq : q ∈ s) : q = p := by
  by_contra hqp
  have hmem : q ∈ s.filter (fun x => x ≠ p) := (mem_filter_ne s p q).mpr ⟨hq, hqp⟩
  rw [h] at hmem
  exact absurd hmem (List.not_mem_nil _)

theorem eraseReverse_none {dep : String} {rg : List (String × List String)}
    (p : String) (h : aget dep rg = none) : eraseReverse p rg dep = rg := by
  unfold eraseReverse
  rw [h]

theorem eraseReverse_some_empty {dep : String} {rg : List (String × List String)}
    {s : List String} {p : String} (h : aget dep rg = some s)
    (he : (s.filter (fun x => x ≠ p)).isEmpty) :
    eraseReverse p rg dep = adel dep rg := by
  unfold eraseReverse
  rw [h]
  exact if_pos he

theorem eraseReverse_some_nonempty {dep : String} {rg : List (String × List String)}
    {s : List String} {p : String} (h : aget dep rg = some s)
    (he : ¬(s.filter (fun x => x ≠ p)).isEmpty) :
    eraseReverse p rg dep = aset dep (s.filter (fun x => x ≠ p)) rg := by
  unfold eraseReverse
  rw [h]
  exact if_neg he

theorem mem_eraseReverse (p dep d q : String) (rg : List (String × List String)) :
    q ∈ (aget d (eraseReverse p rg dep)).getD [] ↔
      q ∈ (aget d rg).getD [] ∧ ¬(q = p ∧ d = dep) := by
  cases hg : aget dep rg with
  | none =>
    rw [eraseReverse_none p hg]
    by_cases hd : d = dep
    · subst hd
      simp [hg]
    · simp [hd]
  | some s =>
    by_cases hemp : (s.filter (fun x => x ≠ p)).isEmpty
    · rw [eraseReverse_some_empty hg hemp]
      rw [List.isEmpty_iff] at hemp
      by_cases hd : d = dep
      · subst hd
        rw [aget_adel_self, hg]
        simp only [Option.getD_none, Option.getD_some, List.not_mem_nil, false_iff]
        rintro ⟨hq, hnot⟩
        exact hnot ⟨eq_of_filter_ne_nil hemp hq, by trivial⟩
      · rw [aget_adel_ne _ hd]
        simp [hd]
    · rw [eraseReverse_some_nonempty hg hemp]
      by_cases hd : d = dep
      · subst hd
        rw [aget_aset_self, hg]
        simp only [Option.getD_some]
        rw [mem_filter_ne]
        simp
      · rw [aget_aset_ne _ _ hd]
        simp [hd]

theorem mem_eraseReverse_fold (p : String) (deps : List String) (d q : String) :
    ∀ rg : List (String × List String),
      q ∈ (aget d (deps.foldl (eraseReverse p) rg)).getD [] ↔
        q ∈ (aget d rg).getD [] ∧ ¬(q = p ∧ d ∈ deps) := by
  induction deps with
  | nil => simp
  | cons dep rest ih =>
    intro rg
    rw [List.foldl_cons, ih, mem_eraseReverse]
    simp only [List.mem_cons]
    tauto

/-- C2 (amended): `removeDependency p` deletes `p`'s forward entry and `p`'s
reverse entry, and erases `p` from the reverse set of each of `p`'s recorded
forward dependencies (dropping reverse entries that become empty); the
forward entries of all other files are untouched, so `p` can remain a
forward-edge member of entries that depended on it and the symmetry
invariant is not preserved by removal in that case. -/
theorem removeDependency_effect (tr : Tracker) (p q d : String) :
    aget p (removeDependency tr p).dependencyGraph = none
    ∧ aget p (removeDependency tr p).reverseDependencyGraph = none
    ∧ (q ≠ p → aget q (removeDependency tr p).dependencyGraph = aget q tr.dependencyGraph)
    ∧ (d ≠ p →
        (q ∈ (aget d (removeDependency tr p).reverseDependencyGraph).getD [] ↔
          q ∈ (aget d tr.reverseDependencyGraph).getD []
            ∧ ¬(q = p ∧ d ∈ (aget p tr.dependencyGraph).getD []))) := by
  refine ⟨aget_adel_self _ _, aget_adel_self _ _, ?_, ?_⟩
  · intro hq
    exact aget_adel_ne _ hq
  · intro hd
    show q ∈ (aget d (adel p _)).getD [] ↔ _
    rw [aget_adel_ne _ hd]
    cases hg : aget p tr.dependencyGraph with
    | none => simp [hg]
    | some deps => rw [mem_eraseReverse_fold]; simp [hg]

/-- C2 amended-claim witness: the characterization applied to the pair
tracker at the concrete removal of `p.ts`. -/
theorem removeDependency_effect_witness :
    aget "p.ts" (removeDependency pairTracker "p.ts").dependencyGraph = none
    ∧ aget "q.ts" (removeDependency pairTracker "p.ts").dependencyGraph
        = aget "q.ts" pairTracker.dependencyGraph
    ∧ ("q.ts" ∈
          (aget "b.ts" (removeDependency pairTracker "p.ts").reverseDependencyGraph).getD []
        ↔ "q.ts" ∈ (aget "b.ts" pairTracker.reverseDependencyGraph).getD []
            ∧ ¬("q.ts" = "p.ts"
                ∧ "b.ts" ∈ (aget "p.ts" pairTracker.dependencyGraph).getD [])) :=
  ⟨(removeDependency_effect pairTracker "p.ts" "q.ts" "b.ts").1,
   (removeDependency_effect pairTracker "p.ts" "q.ts" "b.ts").2.2.1 (by decide),
   (removeDependency_effect pairTracker "p.ts" "q.ts" "b.ts").2.2.2 (by decide)⟩

/-! ## C6: cache hits skip the analyzer -/

theorem hasFileChanged_false_state (st : CacheManagerState) (fsm : FsModel)
    (p h : String) (hf : (hasFileChanged st fsm p h).1 = false) :
    (hasFileChanged st fsm p h).2 = st := by
  revert hf
  unfold hasFileChanged
  cases aget p st.metadata.controllers with
  | none => simp
  | some cached =>
    by_cases hh : cached.fileHash = h
    · cases statSize fsm p with
      | none => simp [hh]
      | some sz =>
        by_cases hsz : cached.fileSize = sz
        · simp [hh, hsz]
        · simp [hh, hsz]
    · simp [hh]

/-- C6: when a cached record exists for the path and the two-layer
fingerprint-and-size check reports it unchanged, `scanFile` returns the
cached analysis payload, leaves the cache state untouched, and does not
invoke the per-file analyzer (invocation flag `false`) — so on a second scan
cycle over unchanged files the analyzer runs zero times. -/
theorem scanFile_cache_hit (analyze : Analyzer) (fsm : FsModel) (now : Nat)
    (st : CacheManagerState) (p : String) (c : CachedController)
    (hc : aget p st.metadata.controllers = some c)
    (hunchanged : (hasFileChanged st fsm p (calcHash fsm p)).1 = false) :
    scanFile analyze fsm now st p = (some c.controllerInfo, st, false) := by
  unfold scanFile
  simp only [hc, hunchanged, Bool.false_eq_true, if_false,
    hasFileChanged_false_state st fsm p (calcHash fsm p) hunchanged]

/-- C6 witness: a concrete cache hit — `a.ts` cached with hash `"h"` and
size 4, unchanged on disk — is served from cache without the analyzer. -/
theorem scanFile_cache_hit_witness :
    scanFile constAnalyzer hitFs 99 hitState "a.ts"
      = (some (Json.str "payload"), hitState, false) :=
  scanFile_cache_hit constAnalyzer hitFs 99 hitState "a.ts"
    (mkRecord "a.ts" "h" 4 (.str "payload") []) (by rfl) (by rfl)

/-! ## C9: termination and edge coverage of the transitive-impact query -/

theorem stepList_subset_targets {tr : Tracker} {x y : String}
    (h : y ∈ stepList tr x) :
    y ∈ ((tr.reverseDependencyGraph.map (fun e => e.2)).flatten
      ++ tr.inheritanceGraph.map (fun e => e.1)) := by
  rw [List.mem_append]
  rcases List.mem_append.mp h with hd | hi
  · left
    unfold getDependentsG at hd
    cases hg : aget x tr.reverseDependencyGraph with
    | none => rw [hg] at hd; exact absurd hd (List.not_mem_nil _)
    | some s =>
      rw [hg] at hd
      have hmem := aget_eq_some_mem hg
      exact List.mem_flatten.mpr ⟨s, List.mem_map.mpr ⟨(x, s), hmem, rfl⟩, hd⟩
  · right
    unfold getInheritorsG at hi
    rcases List.mem_map.mp hi with ⟨e, he, rfl⟩
    exact List.mem_map.mpr ⟨e, List.mem_of_mem_filter he, rfl⟩

theorem stepList_subset_universe {tr : Tracker} {p x y : String}
    (h : y ∈ stepList tr x) : y ∈ reachUniverse tr p :=
  List.mem_cons_of_mem _ (stepList_subset_targets h)

theorem length_le_sum_of_aget {x : String} {s : List String}
    {l : List (String × List String)} (h : aget x l = some s) :
    s.length ≤ (l.map (fun e => e.2.length)).sum := by
  have hmem : s.length ∈ l.map (fun e => e.2.length) :=
    List.mem_map.mpr ⟨(x, s), aget_eq_some_mem h, rfl⟩
  exact List.single_le_sum (fun _ _ => Nat.zero_le _) _ hmem

theorem stepList_length_le (tr : Tracker) (x : String) :
    (stepList tr x).length ≤ degBound tr := by
  unfold stepList degBound
  rw [List.length_append]
  have h1 : (getDependentsG tr x).length
      ≤ (tr.reverseDependencyGraph.map (fun e => e.2.length)).sum := by
    unfold getDependentsG
    cases hg : aget x tr.reverseDependencyGraph with
    | none => simp
    | some s => simpa using length_le_sum_of_aget hg
  have h2 : (getInheritorsG tr x).length ≤ tr.inheritanceGraph.length := by
    unfold getInheritorsG
    rw [List.length_map]
    exact List.length_filter_le _ _
  omega

/-- Number of not-yet-visited nodes of a list, the decreasing measure of the
worklist loop. -/
def unvisitedCount (uni visited : List String) : Nat :=
  (uni.filter (fun x => x ∉ visited)).length

theorem unvisitedCount_nil (uni : List String) : unvisitedCount uni [] = uni.length := by
  simp [unvisitedCount]

theorem unvisitedCount_cons_le (uni visited : List String) (c : String) :
    unvisitedCount uni (c :: visited) ≤ unvisitedCount uni visited := by
  induction uni with
  | nil => simp [unvisitedCount]
  | cons a rest ih =>
    unfold unvisitedCount at ih ⊢
    by_cases ha : a ∈ visited
    · simp only [List.filter_cons]
      have h1 : (decide (a ∉ c :: visited)) = false := by
        simp [ha]
      have h2 : (decide (a ∉ visited)) = false := by simp [ha]
      rw [h1, h2]
      exact ih
    · by_cases hac : a = c
      · simp only [List.filter_cons]
        have h1 : (decide (a ∉ c :: visited)) = false := by simp [hac]
        have h2 : (decide (a ∉ visited)) = true := by simp [ha]
        rw [h1, h2]
        exact Nat.le_succ_of_le ih
      · simp only [List.filter_cons]
        have h1 : (decide (a ∉ c :: visited)) = true := by simp [ha, hac]
        have h2 : (decide (a ∉ visited)) = true := by simp [ha]
        rw [h1, h2]
        simpa using ih

theorem unvisitedCount_cons_lt {uni visited : List String} {c : String}
    (hc : c ∈ uni) (hv : c ∉ visited) :
    unvisitedCount uni (c :: visited) < unvisitedCount uni visited := by
  induction uni with
  | nil => exact absurd hc (List.not_mem_nil _)
  | cons a rest ih =>
    unfold unvisitedCount
    by_cases hac : a = c
    · subst hac
      simp only [List.filter_cons]
      have h1 : (decide (a ∉ a :: visited)) = false := by simp
      have h2 : (decide (a ∉ visited)) = true := by simp [hv]
      rw [h1, h2]
      exact Nat.lt_succ_of_le (unvisitedCount_cons_le rest visited a)
    · have hc' : c ∈ rest := by
        rcases List.mem_cons.mp hc with h | h
        · exact absurd h.symm hac
        · exact h
      simp only [List.filter_cons]
      by_cases ha : a ∈ visited
      · have h1 : (decide (a ∉ c :: visited)) = false := by simp [ha]
        have h2 : (decide (a ∉ visited)) = false := by simp [ha]
        rw [h1, h2]
        exact ih hc'
      · have h1 : (decide (a ∉ c :: visited)) = true := by simp [ha, hac]
        have h2 : (decide (a ∉ visited)) = true := by simp [ha]
        rw [h1, h2]
        have hrest := ih hc'
        unfold unvisitedCount at hrest
        simp only [if_true, List.length_cons]
        omega

theorem affectedAux_isSome (tr : Tracker) (p : String) :
    ∀ (fuel : Nat) (queue visited affected : List String),
      (∀ x ∈ queue, x ∈ reachUniverse tr p) →
      1 + queue.length
          + unvisitedCount (reachUniverse tr p) visited * (1 + degBound tr) ≤ fuel →
      (affectedAux tr fuel queue visited affected).isSome := by
  intro fuel
  induction fuel with
  | zero =>
    intro queue visited affected _ hf
    omega
  | succ fuel ih =>
    intro queue visited affected hq hf
    cases queue with
    | nil => simp [affectedAux]
    | cons c rest =>
      by_cases hv : c ∈ visited
      · have heq : affectedAux tr (fuel + 1) (c :: rest) visited affected
            = affectedAux tr fuel rest visited affected := by
          simp [affectedAux, hv]
        rw [heq]
        apply ih rest visited affected (fun x hx => hq x (List.mem_cons_of_mem _ hx))
        rw [List.length_cons] at hf
        omega
      · have heq : affectedAux tr (fuel + 1) (c :: rest) visited affected
            = affectedAux tr fuel (rest ++ stepList tr c) (c :: visited)
                (affected ++ stepList tr c) := by
          simp [affectedAux, hv]
        rw [heq]
        apply ih
        · intro x hx
          rcases List.mem_append.mp hx with hx | hx
          · exact hq x (List.mem_cons_of_mem _ hx)
          · exact stepList_subset_universe hx
        · have hcu : c ∈ reachUniverse tr p := hq c (List.mem_cons_self _ _)
          have hlt := unvisitedCount_cons_lt hcu hv
          have hstep := stepList_length_le tr c
          have hmul : (unvisitedCount (reachUniverse tr p) (c :: visited) + 1)
                * (1 + degBound tr)
              ≤ unvisitedCount (reachUniverse tr p) visited * (1 + degBound tr) :=
            Nat.mul_le_mul_right _ hlt
          rw [Nat.add_mul, Nat.one_mul] at hmul
          rw [List.length_cons] at hf
          rw [List.length_append]
          omega

theorem affectedAux_sound (tr : Tracker) (start : String) :
    ∀ (fuel : Nat) (queue visited affected res : List String),
      affectedAux tr fuel queue visited affected = some res →
      (∀ x ∈ queue, x = start ∨ ReachPlus tr start x) →
      (∀ x ∈ affected, ReachPlus tr start x) →
      ∀ y ∈ res, ReachPlus tr start y := by
  intro fuel
  induction fuel with
  | zero =>
    intro queue visited affected res hrun
    simp [affectedAux] at hrun
  | succ fuel ih =>
    intro queue visited affected res hrun hq haff
    cases queue with
    | nil =>
      simp only [affectedAux, Option.some.injEq] at hrun
      subst hrun
      exact haff
    | cons c rest =>
      by_cases hv : c ∈ visited
      · rw [show affectedAux tr (fuel + 1) (c :: rest) visited affected
            = affectedAux tr fuel rest visited affected from by simp [affectedAux, hv]]
          at hrun
        exact ih rest visited affected res hrun
          (fun x hx => hq x (List.mem_cons_of_mem _ hx)) haff
      · rw [show affectedAux tr (fuel + 1) (c :: rest) visited affected
            = affectedAux tr fuel (rest ++ stepList tr c) (c :: visited)
                (affected ++ stepList tr c) from by simp [affectedAux, hv]] at hrun
        have hcr : ∀ y ∈ stepList tr c, ReachPlus tr start y := by
          intro y hy
          rcases hq c (List.mem_cons_self _ _) with rfl | hreach
          · exact ReachPlus.base hy
          · exact ReachPlus.step hreach hy
        refine ih _ _ _ res hrun ?_ ?_
        · intro x hx
          rcases List.mem_append.mp hx with hx | hx
          · exact hq x (List.mem_cons_of_mem _ hx)
          · exact Or.inr (hcr x hx)
        · intro x hx
          rcases List.mem_append.mp hx with hx | hx
          · exact haff x hx
          · exact hcr x hx

theorem affectedAux_complete (tr : Tracker) (start : String) :
    ∀ (fuel : Nat) (queue visited affected res : List String),
      affectedAux tr fuel queue visited affected = some res →
      (∀ x ∈ visited, ∀ y, EdgeStep tr x y → y ∈ affected) →
      (∀ y ∈ affected, y ∈ visited ∨ y ∈ queue) →
      (start ∈ visited ∨ start ∈ queue) →
      ∀ y, ReachPlus tr start y → y ∈ res := by
  intro fuel
  induction fuel with
  | zero =>
    intro queue visited affected res hrun
    simp [affectedAux] at hrun
  | succ fuel ih =>
    intro queue visited affected res hrun hclosed hloc hstart
    cases queue with
    | nil =>
      simp only [affectedAux, Option.some.injEq] at hrun
      subst hrun
      have hsub : ∀ y ∈ affected, y ∈ visited := by
        intro y hy
        rcases hloc y hy with h | h
        · exact h
        · exact absurd h (List.not_mem_nil _)
      have hstart' : start ∈ visited := by
        rcases hstart with h | h
        · exact h
        · exact absurd h (List.not_mem_nil _)
      intro y hy
      induction hy with
      | base hE => exact hclosed start hstart' _ hE
      | step hr hE ihr => exact hclosed _ (hsub _ ihr) _ hE
    | cons c rest =>
      by_cases hv : c ∈ visited
      · rw [show affectedAux tr (fuel + 1) (c :: rest) visited affected
            = affectedAux tr fuel rest visited affected from by simp [affectedAux, hv]]
          at hrun
        refine ih rest visited affected res hrun hclosed ?_ ?_
        · intro y hy
          rcases hloc y hy with h | h
          · exact Or.inl h
          · rcases List.mem_cons.mp h with rfl | h
            · exact Or.inl hv
            · exact Or.inr h
        · rcases hstart with h | h
          · exact Or.inl h
          · rcases List.mem_cons.mp h with rfl | h
            · exact Or.inl hv
            · exact Or.inr h
      · rw [show affectedAux tr (fuel + 1) (c :: rest) visited affected
            = affectedAux tr fuel (rest ++ stepList tr c) (c :: visited)
                (affected ++ stepList tr c) from by simp [affectedAux, hv]] at hrun
        refine ih _ _ _ res hrun ?_ ?_ ?_
        · intro x hx y hE
          rcases List.mem_cons.mp hx with rfl | hx
          · exact List.mem_append.mpr (Or.inr hE)
          · exact List.mem_append.mpr (Or.inl (hclosed x hx y hE))
        · intro y hy
          rcases List.mem_append.mp hy with hy | hy
          · rcases hloc y hy with h | h
            · exact Or.inl (List.mem_cons_of_mem _ h)
            · rcases List.mem_cons.mp h with rfl | h
              · exact Or.inl (List.mem_cons_self _ _)
              · exact Or.inr (List.mem_append.mpr (Or.inl h))
          · exact Or.inr (List.mem_append.mpr (Or.inr hy))
        · rcases hstart with h | h
          · exact Or.inl (List.mem_cons_of_mem _ h)
          · rcases List.mem_cons.mp h with rfl | h
            · exact Or.inl (List.mem_cons_self _ _)
            · exact Or.inr (List.mem_append.mpr (Or.inl h))

theorem affectedAux_runs (tr : Tracker) (p : String) :
    (affectedAux tr (affectedBound tr p) [p] [] []).isSome := by
  apply affectedAux_isSome tr p
  · intro x hx
    rcases List.mem_cons.mp hx with rfl | h
    · exact List.mem_cons_self _ _
    · exact absurd h (List.not_mem_nil _)
  · rw [unvisitedCount_nil]
    unfold affectedBound
    simp only [List.length_cons, List.length_nil]
    omega

theorem mem_getAffectedFiles (tr : Tracker) (p y : String) :
    y ∈ getAffectedFiles tr p ↔ ReachPlus tr p y := by
  obtain ⟨res, hres⟩ := Option.isSome_iff_exists.mp (affectedAux_runs tr p)
  have hg : getAffectedFiles tr p = res := by
    unfold getAffectedFiles
    rw [hres]
    rfl
  constructor
  · intro hy
    refine affectedAux_sound tr p _ _ _ _ _ hres ?_ ?_ y (hg ▸ hy)
    · intro x hx
      rcases List.mem_cons.mp hx with rfl | h
      · exact Or.inl rfl
      · exact absurd h (List.not_mem_nil _)
    · intro x hx
      exact absurd hx (List.not_mem_nil _)
  · intro hr
    rw [hg]
    refine affectedAux_complete tr p _ _ _ _ _ hres ?_ ?_ ?_ y hr
    · intro x hx
      exact absurd hx (List.not_mem_nil _)
    · intro z hz
      exact absurd hz (List.not_mem_nil _)
    · exact Or.inr (List.mem_cons_self _ _)

/-- C9: the transitive-impact traversal terminates on every dependency
graph, cyclic ones included: the explicit fuel `affectedBound` — polynomial
in the number of distinct files and edges, as guaranteed by the visited-set
deduplication — always suffices to drain the worklist.  Each hop follows the
union of the two edge kinds (plain reverse dependents and
inheritance-reverse dependents), and the result is exactly the set of files
reachable from the changed file through one or more such hops. -/
theorem getAffectedFiles_terminates_and_covers (tr : Tracker) (p : String) :
    (affectedAux tr (affectedBound tr p) [p] [] []).isSome
    ∧ (∀ x y, EdgeStep tr x y ↔ (y ∈ getDependentsG tr x ∨ y ∈ getInheritorsG tr x))
    ∧ (∀ y, y ∈ getAffectedFiles tr p ↔ ReachPlus tr p y) :=
  ⟨affectedAux_runs tr p,
   fun _ _ => List.mem_append,
   fun y => mem_getAffectedFiles tr p y⟩

/-! ## C10: the changed file itself -/

theorem mem_collectStep_of_mem (acc : List String × CacheManagerState × Tracker)
    (e : FileChangeEvent) {x : String} (hx : x ∈ acc.1) : x ∈ (collectStep acc e).1 := by
  obtain ⟨aff, st, tr⟩ := acc
  obtain ⟨ty, path⟩ := e
  cases ty with
  | unlink =>
    simp only [collectStep, handleFileDelete]
    exact mem_foldl_addElem.mpr (Or.inl hx)
  | add =>
    simp only [collectStep]
    by_cases hdto : isDtoFile path <;>
      simp [hdto, mem_foldl_addElem, mem_addElem, hx]
  | change =>
    simp only [collectStep]
    by_cases hdto : isDtoFile path <;>
      simp [hdto, mem_foldl_addElem, mem_addElem, hx]

theorem mem_collectStep_self (acc : List String × CacheManagerState × Tracker)
    (e : FileChangeEvent) (hne : e.type ≠ FileEventType.unlink) :
    e.filePath ∈ (collectStep acc e).1 := by
  obtain ⟨aff, st, tr⟩ := acc
  obtain ⟨ty, path⟩ := e
  cases ty with
  | unlink => exact absurd rfl hne
  | add =>
    simp only [collectStep]
    by_cases hdto : isDtoFile path <;>
      simp [hdto, mem_foldl_addElem, mem_addElem]
  | change =>
    simp only [collectStep]
    by_cases hdto : isDtoFile path <;>
      simp [hdto, mem_foldl_addElem, mem_addElem]

theorem mem_foldl_collectStep_of_mem (events : List FileChangeEvent) :
    ∀ (acc : List String × CacheManagerState × Tracker) (x : String), x ∈ acc.1 →
      x ∈ (events.foldl collectStep acc).1 := by
  induction events with
  | nil => intro acc x hx; exact hx
  | cons e rest ih =>
    intro acc x hx
    exact ih (collectStep acc e) x (mem_collectStep_of_mem acc e hx)

theorem mem_collect_events (events : List FileChangeEvent) :
    ∀ (acc : List String × CacheManagerState × Tracker) (e : FileChangeEvent),
      e ∈ events → e.type ≠ FileEventType.unlink →
      e.filePath ∈ (events.foldl collectStep acc).1 := by
  induction events with
  | nil =>
    intro acc e he
    exact absurd he (List.not_mem_nil _)
  | cons f rest ih =>
    intro acc e he hne
    rcases List.mem_cons.mp he with rfl | he
    · exact mem_foldl_collectStep_of_mem rest _ _ (mem_collectStep_self acc e hne)
    · exact ih (collectStep acc f) e he hne

/-- C10: when no reverse-dependency or reverse-inheritance cycle passes
through `p`, the transitive-impact result for `p` does not contain `p`
itself; the collecting phase of `processFileChanges` therefore adds the
event path of every added/modified event to the affected set directly. -/
theorem changed_file_added_by_caller (tr : Tracker) (p : String)
    (st : CacheManagerState) (tr' : Tracker) (events : List FileChangeEvent) :
    (¬ ReachPlus tr p p → p ∉ getAffectedFiles tr p)
    ∧ ∀ e ∈ events, e.type ≠ FileEventType.unlink →
        e.filePath ∈ (collectAffected st tr' events).1 :=
  ⟨fun hnc hp => hnc ((mem_getAffectedFiles tr p p).mp hp),
   fun e he hne => mem_collect_events events ([], st, tr') e he hne⟩

/-- C10 witness: `x.ts` has no cycle through it in the pair tracker, so its
affected set excludes it, and processing a `change` event for `a.ts` puts
`a.ts` in the affected set. -/
theorem changed_file_added_by_caller_witness :
    "x.ts" ∉ getAffectedFiles pairTracker "x.ts"
    ∧ "a.ts" ∈
        (collectAffected chainState pairTracker
          [{ type := FileEventType.change, filePath := "a.ts" }]).1 :=
  ⟨(changed_file_added_by_caller pairTracker "x.ts" chainState pairTracker []).1
      (fun h => by
        cases h with
        | base hE => exact absurd (stepList_subset_targets hE) (by decide)
        | step hr hE => exact absurd (stepList_subset_targets hE) (by decide)),
   (changed_file_added_by_caller pairTracker "x.ts" chainState pairTracker
      [{ type := FileEventType.change, filePath := "a.ts" }]).2
      { type := FileEventType.change, filePath := "a.ts" }
      (List.mem_singleton.mpr rfl) (by decide)⟩

end NestScramble
